import Mathlib

/-!
Shallow embedding of `src/sysbench/sb_rand.c` (sysbench pseudo-random value
generator core).

Modelling conventions:
* `uint32_t` values are `Nat` with explicit reduction `% 2^32` where the C
  arithmetic can wrap; `unsigned long long` likewise with `% 2^64`.
* C `double` arithmetic is modelled as exact rational arithmetic (`ℚ`); the
  Pareto generator, which uses `pow`/`log`, is modelled over the reals (`ℝ`).
* A C conversion from `double` to `uint32_t` truncates toward zero; it is
  modelled by `ratTrunc`/`realTrunc` followed by `Int.toNat` and `% 2^32`
  (the conversion is undefined behaviour in C for out-of-range values; the
  theorems carry hypotheses keeping the value in range).
-/

set_option autoImplicit false

/-- `uint32_t` reduction. -/
def u32 (x : Nat) : Nat := x % 4294967296

/-- `uint32_t` subtraction `x - y` with wraparound. -/
def u32sub (x y : Nat) : Nat := (x + 4294967296 - y) % 4294967296

/-- Truncation toward zero of a rational, as in a C double-to-integer cast. -/
def ratTrunc (q : ℚ) : ℤ := if 0 ≤ q then ⌊q⌋ else ⌈q⌉

/-- C conversion `(uint32_t) d` for a double `d` modelled as a rational. -/
def ratToU32 (q : ℚ) : Nat := (ratTrunc q).toNat % 4294967296

/-- Truncation toward zero of a real, as in a C double-to-integer cast. -/
noncomputable def realTrunc (x : ℝ) : ℤ := if 0 ≤ x then ⌊x⌋ else ⌈x⌉

/-- C conversion `(uint32_t) d` for a double `d` modelled as a real. -/
noncomputable def realToU32 (x : ℝ) : Nat := (realTrunc x).toNat % 4294967296

/-- `LARGE_PRIME` from sb_rand.c. -/
def LARGE_PRIME : Nat := 2147483647

/-- The integer configuration values read by `sb_rand_init`
(`rand-spec-iter`, `rand-spec-pct`, `rand-spec-res`). -/
structure RandConfig where
  rand_iter : Nat
  rand_pct : Nat
  rand_res : Nat
deriving Repr, DecidableEq

/-- `rand_iter_mult = 1.0 / rand_iter` (sb_rand.c line 132). -/
def rand_iter_mult (c : RandConfig) : ℚ := 1 / (c.rand_iter : ℚ)

/-- `rand_pct_mult = rand_pct / 100.0` (sb_rand.c line 135). -/
def rand_pct_mult (c : RandConfig) : ℚ := (c.rand_pct : ℚ) / 100

/-- `rand_pct_2_mult = rand_pct / 200.0` (sb_rand.c line 136). -/
def rand_pct_2_mult (c : RandConfig) : ℚ := (c.rand_pct : ℚ) / 200

/-- `rand_res_mult = 100.0 / (100.0 - rand_res)` (sb_rand.c line 139). -/
def rand_res_mult (c : RandConfig) : ℚ := 100 / ((100 : ℚ) - (c.rand_res : ℚ))

/-- `pareto_power = log(pareto_h) / log(1.0 - pareto_h)` (sb_rand.c line 142). -/
noncomputable def pareto_power (h : ℝ) : ℝ := Real.log h / Real.log (1 - h)

/-- `sb_rand_uniform` (sb_rand.c lines 191-194):
`return a + sb_rand_uniform_double() * (b - a + 1);`.
The argument `u` is the value of the `sb_rand_uniform_double()` call; the
expression `b - a + 1` is computed in `uint32_t` arithmetic, the sum is a
double converted to `uint32_t` on return. -/
def sb_rand_uniform (a b : Nat) (u : ℚ) : Nat :=
  ratToU32 ((a : ℚ) + u * (u32 (u32sub b a + 1) : ℚ))

/-- `sb_rand_gaussian` (sb_rand.c lines 198-209). `us` is the list of values
returned by the `rand_iter` calls to `sb_rand_uniform_double()` made by the
loop (the theorems assume `us.length = rand_iter`). -/
def sb_rand_gaussian (c : RandConfig) (a b : Nat) (us : List ℚ) : Nat :=
  let t : ℚ := (u32 (u32sub b a + 1) : ℚ)
  let sum : ℚ := (us.map (fun u => u * t)).sum
  u32 (a + ratToU32 (sum * rand_iter_mult c))

/-- `sb_rand_special` (sb_rand.c lines 213-259). `rnd` is the value of the
first `sb_rand_uniform_double()` call (line 229); `us` lists the values of
the `rand_iter` further draws made by the loop in the cold branch. -/
def sb_rand_special (c : RandConfig) (a b : Nat) (rnd : ℚ) (us : List ℚ) : Nat :=
  let t : ℚ := (u32sub b a : ℚ)
  let range_size : ℚ := t * rand_res_mult c
  let res : ℚ := rnd * range_size
  if res < t then
    let sum : ℚ := us.sum
    ratToU32 ((a : ℚ) + sum * t * rand_iter_mult c)
  else
    let d : ℚ := t * rand_pct_mult c
    let res2 : ℚ := rnd * (d + 1)
    let res3 : ℚ := res2 + (t / 2 - t * rand_pct_2_mult c)
    u32 (a + ratToU32 res3)

/-- `sb_rand_pareto` (sb_rand.c lines 263-267):
`return a + (uint32_t) ((b - a + 1) * pow(sb_rand_uniform_double(), pareto_power));`. -/
noncomputable def sb_rand_pareto (h : ℝ) (a b : Nat) (u : ℝ) : Nat :=
  u32 (a + realToU32 ((u32 (u32sub b a + 1) : ℝ) * u ^ pareto_power h))

/-- `sb_rand_uniq` (sb_rand.c lines 271-281), with the mutex-protected global
`rnd_seed` passed and returned explicitly. Returns the generated value and
the updated seed. -/
def sb_rand_uniq (a b : Nat) (rnd_seed : Nat) : Nat × Nat :=
  let res : Nat := u32 (rnd_seed % u32 (u32sub b a + 1))
  (u32 (res + a), (rnd_seed + LARGE_PRIME) % 18446744073709551616)

/-- `sb_rand_thread_init` (sb_rand.c lines 170-177), with the four values
returned by the `random()` calls passed explicitly (`r0` is the first call,
used for the high half of `sb_rng_state[0]`, and so on). `UINT32_MAX` is
`4294967295`. Returns the pair `(sb_rng_state[0], sb_rng_state[1])`. -/
def sb_rand_thread_init (r0 r1 r2 r3 : Nat) : Nat × Nat :=
  (((r0 % 4294967295) <<< 32) ||| (r1 % 4294967295),
   ((r2 % 4294967295) <<< 32) ||| (r3 % 4294967295))

/-- `rand_dist_t` (declared in sb_rand.h, values as used in sb_rand.c). -/
inductive rand_dist_t where
  | DIST_TYPE_UNIFORM
  | DIST_TYPE_GAUSSIAN
  | DIST_TYPE_SPECIAL
  | DIST_TYPE_PARETO
deriving Repr, DecidableEq

/-- The function pointer stored in `rand_func`: one tag per distribution
function whose address `sb_rand_init` can take. -/
inductive RandFunc where
  | uniform
  | gaussian
  | special
  | pareto
deriving Repr, DecidableEq

/-- The distribution-selection part of `sb_rand_init` (sb_rand.c lines
104-129): the chain of `strcmp` tests on the `rand-type` string. On success
(`return 0`) it yields the values assigned to `rand_type` and `rand_func`;
on an unrecognized name it reports a fatal error and `return 1`, modelled as
`Except.error 1`. -/
def sb_rand_init (s : String) : Except Nat (rand_dist_t × RandFunc) :=
  if s = "uniform" then Except.ok (rand_dist_t.DIST_TYPE_UNIFORM, RandFunc.uniform)
  else if s = "gaussian" then Except.ok (rand_dist_t.DIST_TYPE_GAUSSIAN, RandFunc.gaussian)
  else if s = "special" then Except.ok (rand_dist_t.DIST_TYPE_SPECIAL, RandFunc.special)
  else if s = "pareto" then Except.ok (rand_dist_t.DIST_TYPE_PARETO, RandFunc.pareto)
  else Except.error 1

/-- `sb_rand_str` (sb_rand.c lines 285-298), in buffer-writing form. The
template `fmt` is the list of bytes of the C string (the loop stops at a NUL
byte); `u` is the stream of `sb_rand_uniform_double()` values, consumed in
order (index `k` is the next draw); `i` is the next write position in the
buffer `buf : Nat → Nat` (byte memory). `35` is `'#'`, `64` is `'@'`, `48`
is `'0'`, `57` is `'9'`, `97` is `'a'`, `122` is `'z'`; the store
`buf[i] = ...` of a `uint32_t` into a `char` keeps the low byte. -/
def sb_rand_str_go : List Nat → (Nat → ℚ) → Nat → Nat → (Nat → Nat) → Nat → Nat
  | [], _, _, _, buf => buf
  | c :: rest, u, k, i, buf =>
    if c = 0 then buf
    else if c = 35 then
      sb_rand_str_go rest u (k + 1) (i + 1)
        (Function.update buf i (sb_rand_uniform 48 57 (u k) % 256))
    else if c = 64 then
      sb_rand_str_go rest u (k + 1) (i + 1)
        (Function.update buf i (sb_rand_uniform 97 122 (u k) % 256))
    else
      sb_rand_str_go rest u k (i + 1) (Function.update buf i c)

/-- `sb_rand_str fmt u buf` is the buffer after `sb_rand_str(fmt, buf)` when
the thread's uniform draws are the stream `u`. -/
def sb_rand_str (fmt : List Nat) (u : Nat → ℚ) (buf : Nat → Nat) : Nat → Nat :=
  sb_rand_str_go fmt u 0 0 buf

/-- 64-bit rotate left, used by the xoroshiro128+ step. -/
def xoroshiro_rotl (x k : Nat) : Nat :=
  ((x <<< k) ||| (x >>> (64 - k))) % 18446744073709551616

/-- Modelled from the spec: the thread-local bit generator step
(`sb_rand_uniform_uint64` in sb_rand.h, which is not under src/) is a
xoroshiro128+ step — "two 64-bit words advanced each call via
shift/rotate/xor operations, output is the sum of the two words before
advancing". Returns the 64-bit output and the advanced state. -/
def xoroshiro_next (s : Nat × Nat) : Nat × (Nat × Nat) :=
  let s0 := s.1
  let s1 := s.2
  let result := (s0 + s1) % 18446744073709551616
  let s1x := Nat.xor s1 s0
  (result,
   (Nat.xor (Nat.xor (xoroshiro_rotl s0 55) s1x) ((s1x <<< 14) % 18446744073709551616),
    xoroshiro_rotl s1x 36))

/-- Modelled from the spec: `sb_rand_uniform_double` (sb_rand.h, not under
src/) — "returns a double in [0, 1) derived from the 64-bit generator
step"; the top 53 bits of the output scaled by 2^-53. -/
def sb_rand_uniform_double_of (x : Nat) : ℚ :=
  ((x >>> 11 : Nat) : ℚ) / 9007199254740992

/-- `n` successive `sb_rand_uniform_double()` draws from a thread state:
the list of doubles and the final state. -/
def drawN : Nat → Nat × Nat → List ℚ × (Nat × Nat)
  | 0, s => ([], s)
  | n + 1, s =>
    let p := xoroshiro_next s
    let q := drawN n p.2
    (sb_rand_uniform_double_of p.1 :: q.1, q.2)

/-- `sb_rand_default` (sb_rand.c lines 184-187): dispatch through the bound
`rand_func` pointer, consuming draws from the calling thread's generator
state. For the special distribution, the `rand_iter` extra draws are made
only on the cold branch, so the branch condition is repeated here to thread
the generator state exactly as the C code does. -/
noncomputable def sb_rand_default (c : RandConfig) (hp : ℝ) (f : RandFunc)
    (a b : Nat) (s : Nat × Nat) : Nat × (Nat × Nat) :=
  match f with
  | RandFunc.uniform =>
    let p := xoroshiro_next s
    (sb_rand_uniform a b (sb_rand_uniform_double_of p.1), p.2)
  | RandFunc.gaussian =>
    let q := drawN c.rand_iter s
    (sb_rand_gaussian c a b q.1, q.2)
  | RandFunc.special =>
    let p := xoroshiro_next s
    let rnd := sb_rand_uniform_double_of p.1
    if rnd * ((u32sub b a : ℚ) * rand_res_mult c) < (u32sub b a : ℚ) then
      let q := drawN c.rand_iter p.2
      (sb_rand_special c a b rnd q.1, q.2)
    else
      (sb_rand_special c a b rnd [], p.2)
  | RandFunc.pareto =>
    let p := xoroshiro_next s
    (sb_rand_pareto hp a b ((sb_rand_uniform_double_of p.1 : ℚ) : ℝ), p.2)

/-- Modelled from the spec: with `rand-seed ≠ 0` the process entropy source
(libc `random()`, seeded by the `srandom` call outside src/) is a fixed
deterministic stream computed from the seed alone; `random()` returns
values below 2^31. -/
def seedStream (seed : Nat) : Nat → Nat :=
  fun n => (seed + (n + 1) * 2147483647) % 2147483648

/-- Modelled from the spec: with `rand-seed = 0` "the current time is used
as a RNG seed", so the entropy stream is a function of the time `t`. -/
def timeStream (t : Nat) : Nat → Nat :=
  fun n => (t + (n + 1) * 2147483647) % 2147483648

/-- Modelled from the spec: the entropy source available to
`sb_rand_thread_init`, as selected by the configured `rand-seed` value. -/
def entropySource (seed t : Nat) : Nat → Nat :=
  if seed = 0 then timeStream t else seedStream seed

/-- The calls a run of the program can make into the generator after
initialization. -/
inductive SbOp where
  | threadInit
  | generate : Nat → Nat → SbOp
  | uniq : Nat → Nat → SbOp

/-- The mutable state touched by the generator: the calling thread's
`sb_rng_state` words, the position in the process entropy stream (the libc
PRNG state consumed by `random()`), and the global `rnd_seed` counter. -/
structure RunState where
  state0 : Nat
  state1 : Nat
  pos : Nat
  rnd_seed : Nat

/-- A run of a sequence of generator calls against an entropy source `e`,
a configuration and a bound distribution function: the outputs of the
`generate`/`uniq` calls and the final state. `threadInit` performs
`sb_rand_thread_init` from the next four entropy values. -/
noncomputable def sbRun (e : Nat → Nat) (c : RandConfig) (hp : ℝ) (f : RandFunc) :
    List SbOp → RunState → List Nat × RunState
  | [], st => ([], st)
  | SbOp.threadInit :: rest, st =>
    let w := sb_rand_thread_init (e st.pos) (e (st.pos + 1)) (e (st.pos + 2)) (e (st.pos + 3))
    sbRun e c hp f rest { st with state0 := w.1, state1 := w.2, pos := st.pos + 4 }
  | SbOp.generate a b :: rest, st =>
    let r := sb_rand_default c hp f a b (st.state0, st.state1)
    let q := sbRun e c hp f rest { st with state0 := r.2.1, state1 := r.2.2 }
    (r.1 :: q.1, q.2)
  | SbOp.uniq a b :: rest, st =>
    let r := sb_rand_uniq a b st.rnd_seed
    let q := sbRun e c hp f rest { st with rnd_seed := r.2 }
    (r.1 :: q.1, q.2)

/-! ## Arithmetic helper lemmas -/

theorem u32_eq_of_lt {x : Nat} (h : x < 4294967296) : u32 x = x :=
  Nat.mod_eq_of_lt h

theorem u32sub_eq {a b : Nat} (hab : a ≤ b) (hb : b < 4294967296) :
    u32sub b a = b - a := by
  unfold u32sub
  omega

theorem width_eq {a b : Nat} (hab : a ≤ b) (hb : b < 4294967296)
    (hw : b - a + 1 < 4294967296) : u32 (u32sub b a + 1) = b - a + 1 := by
  unfold u32 u32sub
  omega

theorem lor_eq_zero {x y : Nat} (h : x ||| y = 0) : x = 0 ∧ y = 0 := by
  refine ⟨Nat.eq_of_testBit_eq fun i => ?_, Nat.eq_of_testBit_eq fun i => ?_⟩ <;>
    have hb := congrArg (fun n => Nat.testBit n i) h <;>
    simp [Nat.testBit_lor] at hb <;> simp [hb]

theorem ratToU32_eq {q : ℚ} (h0 : 0 ≤ q) (hlt : ⌊q⌋ < 4294967296) :
    ratToU32 q = (⌊q⌋).toNat := by
  unfold ratToU32 ratTrunc
  rw [if_pos h0]
  exact Nat.mod_eq_of_lt (by omega)

theorem realToU32_eq {x : ℝ} (h0 : 0 ≤ x) (hlt : ⌊x⌋ < 4294967296) :
    realToU32 x = (⌊x⌋).toNat := by
  unfold realToU32 realTrunc
  rw [if_pos h0]
  exact Nat.mod_eq_of_lt (by omega)

theorem floor_nat_add (a : Nat) (q : ℚ) : ⌊(a : ℚ) + q⌋ = a + ⌊q⌋ := by
  rw [add_comm ((a : ℚ)) q, Int.floor_add_nat, add_comm]

theorem floor_mul_nonneg {u : ℚ} (w : Nat) (h0 : 0 ≤ u) : 0 ≤ ⌊u * (w : ℚ)⌋ :=
  Int.floor_nonneg.mpr (mul_nonneg h0 (by positivity))

theorem floor_mul_lt {u : ℚ} {w : Nat} (h1 : u < 1) (hw : 0 < w) :
    ⌊u * (w : ℚ)⌋ < (w : ℤ) := by
  rw [Int.floor_lt]
  have hwq : (0 : ℚ) < (w : ℚ) := by exact_mod_cast hw
  calc u * (w : ℚ) < 1 * (w : ℚ) := mul_lt_mul_of_pos_right h1 hwq
    _ = ((w : ℤ) : ℚ) := by push_cast; ring

theorem sum_nonneg_of_mem {us : List ℚ} (h : ∀ u ∈ us, 0 ≤ u) : 0 ≤ us.sum :=
  List.sum_nonneg h

theorem sum_lt_length {us : List ℚ} (h : ∀ u ∈ us, u < 1) (hne : us ≠ []) :
    us.sum < (us.length : ℚ) := by
  induction us with
  | nil => exact absurd rfl hne
  | cons x xs ih =>
    rcases eq_or_ne xs [] with rfl | hne2
    · simpa using h x (by simp)
    · have hx := h x (by simp)
      have hxs := ih (fun u hu => h u (by simp [hu])) hne2
      simp only [List.sum_cons, List.length_cons]
      push_cast
      linarith

theorem map_mul_sum (us : List ℚ) (t : ℚ) :
    (us.map (fun u => u * t)).sum = us.sum * t := by
  induction us with
  | nil => simp
  | cons x xs ih => simp [ih, add_mul]

/-! ## The uniform generator -/

theorem sb_rand_uniform_eq {a b : Nat} {u : ℚ} (hab : a ≤ b) (hb : b < 4294967296)
    (hw : b - a + 1 < 4294967296) (h0 : 0 ≤ u) (h1 : u < 1) :
    sb_rand_uniform a b u = a + (⌊u * ((b - a + 1 : Nat) : ℚ)⌋).toNat := by
  unfold sb_rand_uniform
  rw [width_eq hab hb hw]
  have hq0 : (0 : ℚ) ≤ (a : ℚ) + u * ((b - a + 1 : Nat) : ℚ) := by positivity
  have hfl : ⌊(a : ℚ) + u * ((b - a + 1 : Nat) : ℚ)⌋ = a + ⌊u * ((b - a + 1 : Nat) : ℚ)⌋ :=
    floor_nat_add a _
  have hub : ⌊u * ((b - a + 1 : Nat) : ℚ)⌋ < ((b - a + 1 : Nat) : ℤ) :=
    floor_mul_lt h1 (by omega)
  have hlb : 0 ≤ ⌊u * ((b - a + 1 : Nat) : ℚ)⌋ := floor_mul_nonneg _ h0
  rw [ratToU32_eq hq0 (by rw [hfl]; omega), hfl]
  omega

theorem sb_rand_uniform_range {a b : Nat} {u : ℚ} (hab : a ≤ b) (hb : b < 4294967296)
    (hw : b - a + 1 < 4294967296) (h0 : 0 ≤ u) (h1 : u < 1) :
    a ≤ sb_rand_uniform a b u ∧ sb_rand_uniform a b u ≤ b := by
  rw [sb_rand_uniform_eq hab hb hw h0 h1]
  have hub : ⌊u * ((b - a + 1 : Nat) : ℚ)⌋ < ((b - a + 1 : Nat) : ℤ) :=
    floor_mul_lt h1 (by omega)
  have hlb : 0 ≤ ⌊u * ((b - a + 1 : Nat) : ℚ)⌋ := floor_mul_nonneg _ h0
  omega

/-- Claim C5: for every range `a ≤ b` with `b − a + 1` not overflowing 32
bits and every uniform double `u` in `[0,1)`, `sb_rand_uniform a b u`
returns exactly `a + ⌊u * (b − a + 1)⌋`, and that value lies in the closed
interval `[a, b]`. -/
theorem C5_uniform_formula_and_range (a b : Nat) (u : ℚ) (hab : a ≤ b)
    (hb : b < 4294967296) (hw : b - a + 1 < 4294967296) (h0 : 0 ≤ u) (h1 : u < 1) :
    (sb_rand_uniform a b u : ℤ) = a + ⌊u * ((b : ℚ) - a + 1)⌋ ∧
    a ≤ sb_rand_uniform a b u ∧ sb_rand_uniform a b u ≤ b := by
  refine ⟨?_, sb_rand_uniform_range hab hb hw h0 h1⟩
  have hcast : ((b - a + 1 : Nat) : ℚ) = (b : ℚ) - a + 1 := by
    push_cast [hab]
    ring
  rw [sb_rand_uniform_eq hab hb hw h0 h1, ← hcast]
  have hlb : 0 ≤ ⌊u * ((b - a + 1 : Nat) : ℚ)⌋ := floor_mul_nonneg _ h0
  omega

theorem C5_witness :
    ((3 : Nat) ≤ 7 ∧ (7 : Nat) < 4294967296 ∧ 7 - 3 + 1 < 4294967296 ∧
      (0 : ℚ) ≤ 1 / 2 ∧ (1 / 2 : ℚ) < 1) ∧
    ((sb_rand_uniform 3 7 (1 / 2) : ℤ) = 3 + ⌊(1 / 2 : ℚ) * ((7 : ℚ) - 3 + 1)⌋ ∧
      3 ≤ sb_rand_uniform 3 7 (1 / 2) ∧ sb_rand_uniform 3 7 (1 / 2) ≤ 7) :=
  ⟨by norm_num,
   C5_uniform_formula_and_range 3 7 (1 / 2) (by norm_num) (by norm_num) (by norm_num)
     (by norm_num) (by norm_num)⟩

/-! ## The unique-ID generator -/

/-- Claim C4: for every range `a ≤ b` with `b − a + 1` not overflowing 32
bits, `sb_rand_uniq a b` at counter value `c` returns `a + (c mod (b−a+1))`
— a value in `[a, b]` — and leaves the counter equal to
`c + 2147483647` modulo `2^64`. -/
theorem C4_uniq_formula (a b c : Nat) (hab : a ≤ b) (hb : b < 4294967296)
    (hw : b - a + 1 < 4294967296) :
    sb_rand_uniq a b c = (a + c % (b - a + 1), (c + 2147483647) % 18446744073709551616) ∧
    a ≤ (sb_rand_uniq a b c).1 ∧ (sb_rand_uniq a b c).1 ≤ b := by
  have hm : u32 (u32sub b a + 1) = b - a + 1 := width_eq hab hb hw
  have hr : c % (b - a + 1) < b - a + 1 := Nat.mod_lt _ (by omega)
  have hval : sb_rand_uniq a b c =
      (a + c % (b - a + 1), (c + 2147483647) % 18446744073709551616) := by
    unfold sb_rand_uniq LARGE_PRIME
    rw [hm]
    simp only [u32, Prod.mk.injEq]
    exact ⟨by omega, trivial⟩
  rw [hval]
  refine ⟨rfl, ?_, ?_⟩
  · show a ≤ a + c % (b - a + 1)
    omega
  · show a + c % (b - a + 1) ≤ b
    omega

theorem C4_witness :
    ((5 : Nat) ≤ 10 ∧ (10 : Nat) < 4294967296 ∧ 10 - 5 + 1 < 4294967296) ∧
    (sb_rand_uniq 5 10 7 = (5 + 7 % (10 - 5 + 1), (7 + 2147483647) % 18446744073709551616) ∧
      5 ≤ (sb_rand_uniq 5 10 7).1 ∧ (sb_rand_uniq 5 10 7).1 ≤ 10) :=
  ⟨by norm_num, C4_uniq_formula 5 10 7 (by norm_num) (by norm_num) (by norm_num)⟩

/-! ## Initialization dispatch -/

/-- Claim C8: `sb_rand_init` returns a non-zero (error) result if and only
if the configured rand-type string equals none of "uniform", "gaussian",
"special", "pareto"; for each of those four names it succeeds (returns 0)
binding `rand_type` and `rand_func` to the corresponding distribution, so
no generation occurs after a failed initialization. -/
theorem C8_init_dispatch (s : String) :
    (sb_rand_init s = Except.error 1 ↔
      ¬(s = "uniform" ∨ s = "gaussian" ∨ s = "special" ∨ s = "pareto")) ∧
    sb_rand_init "uniform" = Except.ok (rand_dist_t.DIST_TYPE_UNIFORM, RandFunc.uniform) ∧
    sb_rand_init "gaussian" = Except.ok (rand_dist_t.DIST_TYPE_GAUSSIAN, RandFunc.gaussian) ∧
    sb_rand_init "special" = Except.ok (rand_dist_t.DIST_TYPE_SPECIAL, RandFunc.special) ∧
    sb_rand_init "pareto" = Except.ok (rand_dist_t.DIST_TYPE_PARETO, RandFunc.pareto) := by
  refine ⟨?_, by rfl, by rfl, by rfl, by rfl⟩
  unfold sb_rand_init
  split_ifs with h1 h2 h3 h4 <;> simp_all

/-! ## The special distribution -/

/-- Claim C1 fails on the code: the cold branch of `sb_rand_special` scales
the averaged draws by `t = b − a`, while `sb_rand_gaussian` scales each
draw by `b − a + 1`. At `a = 0`, `b = 1`, one iteration, `rand-spec-res =
75`, branch draw `1/8` (which takes the cold branch) and loop draw `3/4`,
the cold branch returns `0` while the Gaussian algorithm over `[0, 1]`
computed from the same draw returns `1`. -/
theorem C1_counterexample :
    (1 / 8 : ℚ) * ((u32sub 1 0 : ℚ) * rand_res_mult ⟨1, 1, 75⟩) < (u32sub 1 0 : ℚ) ∧
    sb_rand_special ⟨1, 1, 75⟩ 0 1 (1 / 8) [3 / 4] = 0 ∧
    sb_rand_gaussian ⟨1, 1, 75⟩ 0 1 [3 / 4] = 1 := by
  refine ⟨by norm_num [u32sub, rand_res_mult], ?_, ?_⟩
  · norm_num [sb_rand_special, rand_res_mult, rand_iter_mult, rand_pct_mult, rand_pct_2_mult,
      u32sub, u32, ratToU32, ratTrunc]
  · norm_num [sb_rand_gaussian, rand_iter_mult, u32sub, u32, ratToU32, ratTrunc]

/-- Claim C1 amended: when `sb_rand_special a b` takes the cold branch, it
returns the value the Gaussian algorithm computes from the same `N` uniform
draws over the range `[a, b−1]` (range width `b − a`), not over `[a, b]`
(width `b − a + 1`). -/
theorem C1_special_cold_is_gaussian (c : RandConfig) (a b : Nat) (rnd : ℚ) (us : List ℚ)
    (hab : a < b) (hb : b < 4294967296) (hN : 1 ≤ c.rand_iter)
    (hlen : us.length = c.rand_iter) (hus : ∀ u ∈ us, 0 ≤ u ∧ u < 1)
    (hcold : rnd * ((u32sub b a : ℚ) * rand_res_mult c) < (u32sub b a : ℚ)) :
    sb_rand_special c a b rnd us = sb_rand_gaussian c a (b - 1) us := by
  have hab' : a ≤ b := Nat.le_of_lt hab
  have hsub : u32sub b a = b - a := u32sub_eq hab' hb
  have hsub' : u32 (u32sub (b - 1) a + 1) = b - a := by
    unfold u32 u32sub
    omega
  have hne : us ≠ [] := by
    intro h
    rw [h] at hlen
    simp at hlen
    omega
  -- the scaled average S and its bounds
  set S : ℚ := us.sum * ((b - a : Nat) : ℚ) * rand_iter_mult c with hS
  have htpos : (0 : ℚ) < ((b - a : Nat) : ℚ) := by
    have : 0 < b - a := by omega
    exact_mod_cast this
  have hNpos : (0 : ℚ) < (c.rand_iter : ℚ) := by exact_mod_cast hN
  have hsum0 : 0 ≤ us.sum := sum_nonneg_of_mem (fun u hu => (hus u hu).1)
  have hsumlt : us.sum < (c.rand_iter : ℚ) := by
    have := sum_lt_length (fun u hu => (hus u hu).2) hne
    rwa [hlen] at this
  have hS0 : 0 ≤ S := by
    rw [hS]
    unfold rand_iter_mult
    positivity
  have hSlt : S < ((b - a : Nat) : ℚ) := by
    rw [hS]
    unfold rand_iter_mult
    calc us.sum * ((b - a : Nat) : ℚ) * (1 / (c.rand_iter : ℚ))
        < (c.rand_iter : ℚ) * ((b - a : Nat) : ℚ) * (1 / (c.rand_iter : ℚ)) := by
          apply mul_lt_mul_of_pos_right (mul_lt_mul_of_pos_right hsumlt htpos)
          positivity
      _ = ((b - a : Nat) : ℚ) := by
          field_simp
  have hfl0 : 0 ≤ ⌊S⌋ := Int.floor_nonneg.mpr hS0
  have hflb : ⌊S⌋ < ((b - a : Nat) : ℤ) := Int.floor_lt.mpr (by exact_mod_cast hSlt)
  rw [hsub] at hcold
  -- left-hand side: the cold branch
  have hlhs : sb_rand_special c a b rnd us = a + (⌊S⌋).toNat := by
    simp only [sb_rand_special]
    rw [hsub, if_pos hcold]
    show ratToU32 ((a : ℚ) + S) = a + (⌊S⌋).toNat
    have hq0 : (0 : ℚ) ≤ (a : ℚ) + S := by positivity
    rw [ratToU32_eq hq0 (by rw [floor_nat_add]; omega), floor_nat_add]
    omega
  -- right-hand side: the Gaussian algorithm over [a, b-1]
  have hrhs : sb_rand_gaussian c a (b - 1) us = a + (⌊S⌋).toNat := by
    simp only [sb_rand_gaussian]
    rw [hsub', map_mul_sum]
    show u32 (a + ratToU32 S) = a + (⌊S⌋).toNat
    rw [ratToU32_eq hS0 (by omega)]
    unfold u32
    omega
  rw [hlhs, hrhs]

theorem C1_witness :
    ((0 : Nat) < 2 ∧ (2 : Nat) < 4294967296 ∧ 1 ≤ (2 : Nat) ∧
      ([1 / 2, 1 / 2] : List ℚ).length = 2 ∧
      (∀ u ∈ ([1 / 2, 1 / 2] : List ℚ), 0 ≤ u ∧ u < 1) ∧
      (0 : ℚ) * ((u32sub 2 0 : ℚ) * rand_res_mult ⟨2, 1, 75⟩) < (u32sub 2 0 : ℚ)) ∧
    sb_rand_special ⟨2, 1, 75⟩ 0 2 0 [1 / 2, 1 / 2] =
      sb_rand_gaussian ⟨2, 1, 75⟩ 0 (2 - 1) [1 / 2, 1 / 2] :=
  ⟨by norm_num [u32sub, rand_res_mult],
   C1_special_cold_is_gaussian ⟨2, 1, 75⟩ 0 2 0 [1 / 2, 1 / 2] (by norm_num) (by norm_num)
     (by norm_num) (by norm_num) (by norm_num) (by norm_num [u32sub, rand_res_mult])⟩

/-- Claim C6: whenever `sb_rand_special a b` takes the hot branch
(`res ≥ b − a`), it returns exactly
`a + ⌊rnd*((b−a)*P/100 + 1) + (b−a)/2 − (b−a)*P/200⌋`, where `rnd` is the
same uniform draw used for the branch test and `P` the configured
`rand-spec-pct` — the remapping formula preserved exactly as specified. -/
theorem C6_special_hot_formula (c : RandConfig) (a b : Nat) (rnd : ℚ) (us : List ℚ)
    (hab : a ≤ b) (hb : b < 4294967296) (hP : c.rand_pct ≤ 100)
    (h0 : 0 ≤ rnd) (h1 : rnd < 1)
    (hhot : ¬ rnd * ((u32sub b a : ℚ) * rand_res_mult c) < (u32sub b a : ℚ)) :
    (sb_rand_special c a b rnd us : ℤ) =
      a + ⌊rnd * (((b : ℚ) - a) * (c.rand_pct : ℚ) / 100 + 1) +
            ((b : ℚ) - a) / 2 - ((b : ℚ) - a) * (c.rand_pct : ℚ) / 200⌋ := by
  have hsub : u32sub b a = b - a := u32sub_eq hab hb
  rw [hsub] at hhot
  -- the value computed on the hot branch
  set res3 : ℚ := rnd * (((b - a : Nat) : ℚ) * rand_pct_mult c + 1) +
      (((b - a : Nat) : ℚ) / 2 - ((b - a : Nat) : ℚ) * rand_pct_2_mult c) with hres3
  have hcastP : (0 : ℚ) ≤ (c.rand_pct : ℚ) := by positivity
  have hPle : (c.rand_pct : ℚ) ≤ 100 := by exact_mod_cast hP
  have ht0 : (0 : ℚ) ≤ ((b - a : Nat) : ℚ) := by positivity
  have hd0 : (0 : ℚ) ≤ ((b - a : Nat) : ℚ) * rand_pct_mult c := by
    unfold rand_pct_mult
    positivity
  have hdt : ((b - a : Nat) : ℚ) * rand_pct_mult c ≤ ((b - a : Nat) : ℚ) := by
    unfold rand_pct_mult
    nlinarith
  have hX0 : (0 : ℚ) ≤ rnd * (((b - a : Nat) : ℚ) * rand_pct_mult c + 1) := by
    apply mul_nonneg h0
    linarith
  have hXlt : rnd * (((b - a : Nat) : ℚ) * rand_pct_mult c + 1) <
      ((b - a : Nat) : ℚ) * rand_pct_mult c + 1 := by
    nlinarith
  have h2eq : ((b - a : Nat) : ℚ) * rand_pct_2_mult c =
      ((b - a : Nat) : ℚ) * rand_pct_mult c / 2 := by
    unfold rand_pct_mult rand_pct_2_mult
    ring
  have hres30 : 0 ≤ res3 := by
    rw [hres3, h2eq]
    nlinarith
  have hres3lt : res3 < ((b - a : Nat) : ℚ) + 1 := by
    rw [hres3, h2eq]
    nlinarith
  have hfl0 : 0 ≤ ⌊res3⌋ := Int.floor_nonneg.mpr hres30
  have hflb : ⌊res3⌋ < ((b - a : Nat) : ℤ) + 1 := by
    rw [Int.floor_lt]
    push_cast
    exact hres3lt
  have hval : sb_rand_special c a b rnd us = a + (⌊res3⌋).toNat := by
    simp only [sb_rand_special]
    rw [hsub, if_neg hhot]
    show u32 (a + ratToU32 res3) = a + (⌊res3⌋).toNat
    rw [ratToU32_eq hres30 (by omega)]
    unfold u32
    omega
  rw [hval]
  have hargeq : res3 = rnd * (((b : ℚ) - a) * (c.rand_pct : ℚ) / 100 + 1) +
      ((b : ℚ) - a) / 2 - ((b : ℚ) - a) * (c.rand_pct : ℚ) / 200 := by
    rw [hres3]
    unfold rand_pct_mult rand_pct_2_mult
    push_cast [hab]
    ring
  rw [← hargeq]
  omega

theorem C6_witness :
    ((0 : Nat) ≤ 99 ∧ (99 : Nat) < 4294967296 ∧ (⟨12, 1, 75⟩ : RandConfig).rand_pct ≤ 100 ∧
      (0 : ℚ) ≤ 1 / 2 ∧ (1 / 2 : ℚ) < 1 ∧
      ¬ (1 / 2 : ℚ) * ((u32sub 99 0 : ℚ) * rand_res_mult ⟨12, 1, 75⟩) < (u32sub 99 0 : ℚ)) ∧
    (sb_rand_special ⟨12, 1, 75⟩ 0 99 (1 / 2) [] : ℤ) =
      0 + ⌊(1 / 2 : ℚ) * (((99 : ℚ) - 0) * ((⟨12, 1, 75⟩ : RandConfig).rand_pct : ℚ) / 100 + 1) +
            ((99 : ℚ) - 0) / 2 - ((99 : ℚ) - 0) * ((⟨12, 1, 75⟩ : RandConfig).rand_pct : ℚ) / 200⌋ :=
  ⟨by norm_num [u32sub, rand_res_mult],
   C6_special_hot_formula ⟨12, 1, 75⟩ 0 99 (1 / 2) [] (by norm_num) (by norm_num) (by norm_num)
     (by norm_num) (by norm_num) (by norm_num [u32sub, rand_res_mult])⟩

/-! ## Per-thread seeding -/

/-- Claim C2 fails on the code: `sb_rand_thread_init` performs no non-zero
check, so the entropy sequence in which every `random()` call returns `0`
leaves both words of the thread's generator state zero. -/
theorem C2_counterexample :
    (sb_rand_thread_init 0 0 0 0).1 = 0 ∧ (sb_rand_thread_init 0 0 0 0).2 = 0 := by
  decide

/-- Claim C2 amended: after `sb_rand_thread_init`, the two 64-bit state
words are not both zero provided at least one of the four entropy draws is
non-zero (libc `random()` returns values below 2^31, so the
`% UINT32_MAX` scaling never zeroes a non-zero draw); if all four draws are
zero, both words are zero. -/
theorem C2_thread_init_nonzero (r0 r1 r2 r3 : Nat)
    (h0 : r0 < 2147483648) (h1 : r1 < 2147483648)
    (h2 : r2 < 2147483648) (h3 : r3 < 2147483648)
    (hnz : r0 ≠ 0 ∨ r1 ≠ 0 ∨ r2 ≠ 0 ∨ r3 ≠ 0) :
    ¬((sb_rand_thread_init r0 r1 r2 r3).1 = 0 ∧
      (sb_rand_thread_init r0 r1 r2 r3).2 = 0) := by
  unfold sb_rand_thread_init
  rintro ⟨ha, hb⟩
  simp only at ha hb
  have ha' := lor_eq_zero ha
  have hb' := lor_eq_zero hb
  have h0' : r0 % 4294967295 = r0 := Nat.mod_eq_of_lt (by omega)
  have h1' : r1 % 4294967295 = r1 := Nat.mod_eq_of_lt (by omega)
  have h2' : r2 % 4294967295 = r2 := Nat.mod_eq_of_lt (by omega)
  have h3' : r3 % 4294967295 = r3 := Nat.mod_eq_of_lt (by omega)
  have hs0 : (r0 % 4294967295) <<< 32 = r0 * 4294967296 := by
    rw [h0', Nat.shiftLeft_eq]
  have hs2 : (r2 % 4294967295) <<< 32 = r2 * 4294967296 := by
    rw [h2', Nat.shiftLeft_eq]
  rw [hs0, h1'] at ha'
  rw [hs2, h3'] at hb'
  rcases hnz with h | h | h | h <;> omega

theorem C2_witness :
    ((1 : Nat) < 2147483648 ∧ (0 : Nat) < 2147483648 ∧
      ((1 : Nat) ≠ 0 ∨ (0 : Nat) ≠ 0 ∨ (0 : Nat) ≠ 0 ∨ (0 : Nat) ≠ 0)) ∧
    ¬((sb_rand_thread_init 1 0 0 0).1 = 0 ∧ (sb_rand_thread_init 1 0 0 0).2 = 0) :=
  ⟨by norm_num,
   C2_thread_init_nonzero 1 0 0 0 (by norm_num) (by norm_num) (by norm_num) (by norm_num)
     (by norm_num)⟩

/-! ## The string formatter -/

theorem sb_rand_str_go_frame_lo (fmt : List Nat) (u : Nat → ℚ) (k s : Nat)
    (buf : Nat → Nat) (j : Nat) (hj : j < s) :
    sb_rand_str_go fmt u k s buf j = buf j := by
  induction fmt generalizing k s buf with
  | nil => rfl
  | cons c rest ih =>
    simp only [sb_rand_str_go]
    split_ifs with hc0 hc35 hc64
    · rfl
    · rw [ih (k + 1) (s + 1) _ (by omega), Function.update_noteq (by omega)]
    · rw [ih (k + 1) (s + 1) _ (by omega), Function.update_noteq (by omega)]
    · rw [ih k (s + 1) _ (by omega), Function.update_noteq (by omega)]

theorem sb_rand_str_go_frame_hi (fmt : List Nat) (u : Nat → ℚ) (k s : Nat)
    (buf : Nat → Nat) (j : Nat) (hj : s + fmt.length ≤ j) :
    sb_rand_str_go fmt u k s buf j = buf j := by
  induction fmt generalizing k s buf with
  | nil => rfl
  | cons c rest ih =>
    simp only [List.length_cons] at hj
    simp only [sb_rand_str_go]
    split_ifs with hc0 hc35 hc64
    · rfl
    · rw [ih (k + 1) (s + 1) _ (by omega), Function.update_noteq (by omega)]
    · rw [ih (k + 1) (s + 1) _ (by omega), Function.update_noteq (by omega)]
    · rw [ih k (s + 1) _ (by omega), Function.update_noteq (by omega)]

theorem digit_draw_range {q : ℚ} (h0 : 0 ≤ q) (h1 : q < 1) :
    48 ≤ sb_rand_uniform 48 57 q % 256 ∧ sb_rand_uniform 48 57 q % 256 ≤ 57 := by
  have hr := sb_rand_uniform_range (a := 48) (b := 57)
    (by norm_num) (by norm_num) (by norm_num) h0 h1
  rw [Nat.mod_eq_of_lt (by omega)]
  exact hr

theorem letter_draw_range {q : ℚ} (h0 : 0 ≤ q) (h1 : q < 1) :
    97 ≤ sb_rand_uniform 97 122 q % 256 ∧ sb_rand_uniform 97 122 q % 256 ≤ 122 := by
  have hr := sb_rand_uniform_range (a := 97) (b := 122)
    (by norm_num) (by norm_num) (by norm_num) h0 h1
  rw [Nat.mod_eq_of_lt (by omega)]
  exact hr

theorem sb_rand_str_go_spec (fmt : List Nat) (u : Nat → ℚ) (k s : Nat)
    (buf : Nat → Nat) (hnul : ¬ 0 ∈ fmt) (hu : ∀ n, 0 ≤ u n ∧ u n < 1) :
    ∀ i, i < fmt.length →
      (fmt.getD i 0 = 35 →
        48 ≤ sb_rand_str_go fmt u k s buf (s + i) ∧
        sb_rand_str_go fmt u k s buf (s + i) ≤ 57) ∧
      (fmt.getD i 0 = 64 →
        97 ≤ sb_rand_str_go fmt u k s buf (s + i) ∧
        sb_rand_str_go fmt u k s buf (s + i) ≤ 122) ∧
      (fmt.getD i 0 ≠ 35 → fmt.getD i 0 ≠ 64 →
        sb_rand_str_go fmt u k s buf (s + i) = fmt.getD i 0) := by
  induction fmt generalizing k s buf with
  | nil =>
    intro i hi
    simp at hi
  | cons c rest ih =>
    have hc0 : ¬ c = 0 := fun h => hnul (by simp [h])
    have hnul' : ¬ 0 ∈ rest := fun h => hnul (by simp [h])
    intro i hi
    cases i with
    | zero =>
      simp only [List.getD_cons_zero, Nat.add_zero]
      simp only [sb_rand_str_go, if_neg hc0]
      split_ifs with hc35 hc64
      · rw [sb_rand_str_go_frame_lo rest u (k + 1) (s + 1) _ s (by omega),
          Function.update_same]
        have hd := digit_draw_range (hu k).1 (hu k).2
        refine ⟨fun _ => hd, fun h => absurd (hc35 ▸ h) (by norm_num), fun h _ => absurd hc35 h⟩
      · rw [sb_rand_str_go_frame_lo rest u (k + 1) (s + 1) _ s (by omega),
          Function.update_same]
        have hl := letter_draw_range (hu k).1 (hu k).2
        refine ⟨fun h => absurd (hc64 ▸ h) (by norm_num), fun _ => hl, fun _ h => absurd hc64 h⟩
      · rw [sb_rand_str_go_frame_lo rest u k (s + 1) _ s (by omega),
          Function.update_same]
        exact ⟨fun h => absurd h hc35, fun h => absurd h hc64, fun _ _ => rfl⟩
    | succ j =>
      simp only [List.length_cons] at hi
      have hstep : s + (j + 1) = (s + 1) + j := by omega
      simp only [List.getD_cons_succ, hstep]
      simp only [sb_rand_str_go, if_neg hc0]
      split_ifs with hc35 hc64
      · exact ih (k + 1) (s + 1) _ hnul' j (by omega)
      · exact ih (k + 1) (s + 1) _ hnul' j (by omega)
      · exact ih k (s + 1) _ hnul' j (by omega)

/-- Claim C9: for every template `fmt` (bytes of the C string, `#` = 35,
`@` = 64) and index `i < length fmt`, the byte written by `sb_rand_str` at
`i` is a digit (`'0'..'9'` = 48..57) when `fmt[i]` is `#`, a lowercase
letter (`'a'..'z'` = 97..122) when `fmt[i]` is `@`, and `fmt[i]` itself
otherwise, for every sequence of uniform draws in `[0,1)`. -/
theorem C9_str_classes (fmt : List Nat) (u : Nat → ℚ) (buf : Nat → Nat) (i : Nat)
    (hnul : ¬ 0 ∈ fmt) (hu : ∀ n, 0 ≤ u n ∧ u n < 1) (hi : i < fmt.length) :
    (fmt.getD i 0 = 35 →
      48 ≤ sb_rand_str fmt u buf i ∧ sb_rand_str fmt u buf i ≤ 57) ∧
    (fmt.getD i 0 = 64 →
      97 ≤ sb_rand_str fmt u buf i ∧ sb_rand_str fmt u buf i ≤ 122) ∧
    (fmt.getD i 0 ≠ 35 → fmt.getD i 0 ≠ 64 → sb_rand_str fmt u buf i = fmt.getD i 0) := by
  have h := sb_rand_str_go_spec fmt u 0 0 buf hnul hu i hi
  simpa [sb_rand_str] using h

theorem C9_witness :
    (¬ (0 : Nat) ∈ [35, 45, 64] ∧
      (∀ n : Nat, 0 ≤ (fun _ : Nat => (1 / 2 : ℚ)) n ∧ (fun _ : Nat => (1 / 2 : ℚ)) n < 1) ∧
      (1 : Nat) < ([35, 45, 64] : List Nat).length) ∧
    (([35, 45, 64] : List Nat).getD 1 0 ≠ 35 → ([35, 45, 64] : List Nat).getD 1 0 ≠ 64 →
      sb_rand_str [35, 45, 64] (fun _ => 1 / 2) (fun _ => 99) 1 =
        ([35, 45, 64] : List Nat).getD 1 0) :=
  ⟨⟨by norm_num, fun n => by norm_num, by norm_num⟩,
   (C9_str_classes [35, 45, 64] (fun _ => 1 / 2) (fun _ => 99) 1 (by norm_num)
     (fun n => by norm_num) (by norm_num)).2.2⟩

/-- Claim C10: `sb_rand_str` writes only the first `length fmt` bytes of
the buffer: it appends no NUL terminator, and every byte at index
`≥ length fmt` keeps its previous value, for every sequence of draws. -/
theorem C10_str_frame (fmt : List Nat) (u : Nat → ℚ) (buf : Nat → Nat) (j : Nat)
    (hj : fmt.length ≤ j) : sb_rand_str fmt u buf j = buf j := by
  unfold sb_rand_str
  exact sb_rand_str_go_frame_hi fmt u 0 0 buf j (by omega)

theorem C10_witness :
    (([35, 45, 64] : List Nat).length ≤ 3) ∧
    sb_rand_str [35, 45, 64] (fun _ => 1 / 2) (fun _ => 99) 3 = (fun _ : Nat => 99) 3 :=
  ⟨by norm_num, C10_str_frame [35, 45, 64] (fun _ => 1 / 2) (fun _ => 99) 3 (by norm_num)⟩

/-! ## The Pareto distribution -/

/-- Claim C7: for every range `a ≤ b` with `b − a + 1` not overflowing 32
bits, every uniform double `u` in `[0,1)` and every shape parameter
`0 < H < 1`, `sb_rand_pareto H a b u` returns exactly
`a + ⌊(b − a + 1) * u ^ (ln H / ln (1 − H))⌋`, and the output lies in
`[a, b]`. -/
theorem C7_pareto_formula_and_range (h : ℝ) (a b : Nat) (u : ℝ)
    (hh0 : 0 < h) (hh1 : h < 1) (hab : a ≤ b) (hb : b < 4294967296)
    (hw : b - a + 1 < 4294967296) (h0 : 0 ≤ u) (h1 : u < 1) :
    (sb_rand_pareto h a b u : ℤ) =
      a + ⌊((b : ℝ) - a + 1) * u ^ (Real.log h / Real.log (1 - h))⌋ ∧
    a ≤ sb_rand_pareto h a b u ∧ sb_rand_pareto h a b u ≤ b := by
  have hp : 0 < pareto_power h := by
    unfold pareto_power
    have hlh : Real.log h < 0 := Real.log_neg hh0 hh1
    have hl1h : Real.log (1 - h) < 0 := Real.log_neg (by linarith) (by linarith)
    exact div_pos_of_neg_of_neg hlh hl1h
  have hx0 : 0 ≤ u ^ pareto_power h := Real.rpow_nonneg h0 _
  have hx1 : u ^ pareto_power h < 1 := Real.rpow_lt_one h0 h1 hp
  have hwid : u32 (u32sub b a + 1) = b - a + 1 := width_eq hab hb hw
  have hwpos : (0 : ℝ) < ((b - a + 1 : Nat) : ℝ) := by
    have : 0 < b - a + 1 := by omega
    exact_mod_cast this
  set x : ℝ := ((b - a + 1 : Nat) : ℝ) * u ^ pareto_power h with hxdef
  have hX0 : 0 ≤ x := by
    rw [hxdef]
    positivity
  have hXlt : x < ((b - a + 1 : Nat) : ℝ) := by
    rw [hxdef]
    nlinarith
  have hfl0 : 0 ≤ ⌊x⌋ := Int.floor_nonneg.mpr hX0
  have hflb : ⌊x⌋ < ((b - a + 1 : Nat) : ℤ) := Int.floor_lt.mpr (by exact_mod_cast hXlt)
  have hval : sb_rand_pareto h a b u = a + (⌊x⌋).toNat := by
    unfold sb_rand_pareto
    rw [hwid]
    show u32 (a + realToU32 x) = a + (⌊x⌋).toNat
    rw [realToU32_eq hX0 (by omega)]
    unfold u32
    omega
  have hcast : ((b - a + 1 : Nat) : ℝ) = (b : ℝ) - a + 1 := by
    push_cast [hab]
    ring
  have hxeq : x = ((b : ℝ) - a + 1) * u ^ (Real.log h / Real.log (1 - h)) := by
    rw [hxdef, hcast]
    rfl
  rw [hval, ← hxeq]
  refine ⟨by omega, by omega, by omega⟩

theorem C7_witness :
    ((0 : ℝ) < 1 / 5 ∧ (1 / 5 : ℝ) < 1 ∧ (1 : Nat) ≤ 6 ∧ (6 : Nat) < 4294967296 ∧
      6 - 1 + 1 < 4294967296 ∧ (0 : ℝ) ≤ 1 / 2 ∧ (1 / 2 : ℝ) < 1) ∧
    ((sb_rand_pareto (1 / 5) 1 6 (1 / 2) : ℤ) =
      1 + ⌊((6 : ℝ) - 1 + 1) * (1 / 2 : ℝ) ^ (Real.log (1 / 5) / Real.log (1 - 1 / 5))⌋ ∧
      1 ≤ sb_rand_pareto (1 / 5) 1 6 (1 / 2) ∧ sb_rand_pareto (1 / 5) 1 6 (1 / 2) ≤ 6) :=
  ⟨by norm_num, by
    have hc := C7_pareto_formula_and_range (1 / 5) 1 6 (1 / 2) (by norm_num) (by norm_num)
      (by norm_num) (by norm_num) (by norm_num) (by norm_num) (by norm_num)
    exact_mod_cast hc⟩

/-! ## Determinism under a fixed seed -/

/-- Claim C3: when the configured rand-seed is non-zero, generation is
deterministic across runs: two executions differing only in the current
time (`t1` vs `t2`), performing the same sequence of thread-init, generate
and uniq calls, see the same thread state after every seeding and the same
output from every generation call. The entropy source is modelled from the
spec (the `srandom` call consuming rand-seed is outside src/). -/
theorem C3_fixed_seed_deterministic (seed t1 t2 : Nat) (c : RandConfig) (hp : ℝ)
    (f : RandFunc) (ops : List SbOp) (st : RunState) (hseed : seed ≠ 0) :
    (∀ p : Nat,
      sb_rand_thread_init (entropySource seed t1 p) (entropySource seed t1 (p + 1))
          (entropySource seed t1 (p + 2)) (entropySource seed t1 (p + 3)) =
        sb_rand_thread_init (entropySource seed t2 p) (entropySource seed t2 (p + 1))
          (entropySource seed t2 (p + 2)) (entropySource seed t2 (p + 3))) ∧
    sbRun (entropySource seed t1) c hp f ops st =
      sbRun (entropySource seed t2) c hp f ops st := by
  have h1 : entropySource seed t1 = seedStream seed := by
    unfold entropySource
    exact if_neg hseed
  have h2 : entropySource seed t2 = seedStream seed := by
    unfold entropySource
    exact if_neg hseed
  rw [h1, h2]
  exact ⟨fun _ => rfl, rfl⟩

theorem C3_witness :
    (1 : Nat) ≠ 0 ∧
    ((∀ p : Nat,
      sb_rand_thread_init (entropySource 1 0 p) (entropySource 1 0 (p + 1))
          (entropySource 1 0 (p + 2)) (entropySource 1 0 (p + 3)) =
        sb_rand_thread_init (entropySource 1 5 p) (entropySource 1 5 (p + 1))
          (entropySource 1 5 (p + 2)) (entropySource 1 5 (p + 3))) ∧
    sbRun (entropySource 1 0) ⟨12, 1, 75⟩ 0 RandFunc.uniform
        [SbOp.threadInit, SbOp.generate 0 9, SbOp.uniq 0 9] ⟨0, 0, 0, 2147483647⟩ =
      sbRun (entropySource 1 5) ⟨12, 1, 75⟩ 0 RandFunc.uniform
        [SbOp.threadInit, SbOp.generate 0 9, SbOp.uniq 0 9] ⟨0, 0, 0, 2147483647⟩) :=
  ⟨by norm_num,
   C3_fixed_seed_deterministic 1 0 5 ⟨12, 1, 75⟩ 0 RandFunc.uniform
     [SbOp.threadInit, SbOp.generate 0 9, SbOp.uniq 0 9] ⟨0, 0, 0, 2147483647⟩ (by norm_num)⟩
